import Mathlib

/-!
Verification of the layout-preserving PDF translation engine
(`v6.py`, with the background sampler of `v4.py`/`v3.py`).

Strings are modelled as `List Char`; Python floats are modelled as exact
rationals (`ℚ`); the LLM translation backend, the textbox-insertion
primitive, the point-insertion primitive and the page raster are opaque
oracles (a `none` answer models a raised exception).  All definitions are
direct translations of the Python source.  The file is organized as the
definitions (the embedding of the source) followed by the theorems
settling the claims, with their supporting lemmas.
-/

/-! ## String helpers (Python `str` operations used by the source) -/

/-- Character list of a string literal. -/
def cl (s : String) : List Char := s.data

/-- Python `str.strip()`: drop whitespace from both ends. -/
def stripCL (l : List Char) : List Char :=
  ((l.dropWhile Char.isWhitespace).reverse.dropWhile Char.isWhitespace).reverse

/-- Python `str.lower()` (ASCII model). -/
def lowerCL (l : List Char) : List Char := l.map Char.toLower

/-- Python `str.upper()` (ASCII model). -/
def upperCL (l : List Char) : List Char := l.map Char.toUpper

/-- Number of maximal whitespace-separated words, i.e. `len(s.split())`. -/
def countWordsAux : List Char → Bool → Nat
  | [], _ => 0
  | c :: rest, inw =>
    if c.isWhitespace then countWordsAux rest false
    else if inw then countWordsAux rest true
    else 1 + countWordsAux rest true

/-- `len(text.split())` for a Python string. -/
def countWords (l : List Char) : Nat := countWordsAux l false

/-! ## Translation policy (`should_translate_text`, v6.py lines 32-66) -/

/-- Match of the regex `^\d+$`: a non-empty all-digit string. -/
def matchPureNumber (l : List Char) : Bool :=
  !l.isEmpty && l.all Char.isDigit

/-- After `$d`, the regex `[,\d]*\.?\d*`: digits and commas, then an
optional dot followed only by digits. -/
def currencyTail : List Char → Bool
  | [] => true
  | c :: rest =>
    if c = '.' then rest.all Char.isDigit
    else (c.isDigit || c = ',') && currencyTail rest

/-- Match of the currency regex `^\$\d+([,\d]*\.?\d*)?$`. -/
def matchCurrency : List Char → Bool
  | '$' :: c :: rest => c.isDigit && currencyTail rest
  | _ => false

/-- Match of the code/ID regex `^[A-Z0-9]{3,}$`. -/
def matchCodeToken (l : List Char) : Bool :=
  decide (3 ≤ l.length) && l.all (fun c => c.isUpper || c.isDigit)

/-- The fixed abbreviation list of v6.py line 58. -/
def abbrevList : List (List Char) :=
  [cl "N/A", cl "MRI", cl "MRA", cl "PET", cl "CT", cl "PCP", cl "EOC"]

/-- `text.upper() in ['N/A', 'MRI', 'MRA', 'PET', 'CT', 'PCP', 'EOC']`. -/
def isAbbrev (l : List Char) : Bool := abbrevList.contains (upperCL l)

/-- `sum(1 for c in text if c.isalpha())`. -/
def countAlpha (l : List Char) : Nat := l.countP (fun c => c.isAlpha)

/-- v6.py `should_translate_text`: the eligibility filter. -/
def should_translate_text (raw : List Char) : Bool :=
  let text := stripCL raw
  if text.isEmpty then false
  else if matchPureNumber text then false
  else if matchCurrency text then false
  else if matchCodeToken text then false
  else if text.length ≤ 2 then false
  else if isAbbrev text then false
  else if countAlpha text < 3 then false
  else true

/-! ## Conservative translation (`translate_text_conservative`, v6.py 68-134) -/

/-- The fixed glossary `common_terms` of v6.py lines 78-93, transcribed
verbatim (including the mojibake bytes present in the source file). -/
def commonTerms : List (List Char × List Char) :=
  [ (cl "copay", cl "copago"),
    (cl "deductible", cl "deducible"),
    (cl "premium", cl "prima"),
    (cl "plan", cl "plan"),
    (cl "year", cl "a√±o"),
    (cl "services", cl "servicios"),
    (cl "coverage", cl "cobertura"),
    (cl "benefits", cl "beneficios"),
    (cl "maximum", cl "m√°ximo"),
    (cl "monthly", cl "mensual"),
    (cl "medical", cl "m√©dico"),
    (cl "hospital", cl "hospital"),
    (cl "inpatient", cl "hospitalizaci√≥n"),
    (cl "outpatient", cl "ambulatorio") ]

/-- Python dict lookup on an insertion-ordered association list. -/
def lookupAList : List (List Char × List Char) → List Char → Option (List Char)
  | [], _ => none
  | (k, v) :: rest, key => if key = k then some v else lookupAList rest key

/-- The glossary shortcut of v6.py lines 76-97: for text of at most two
words, look the lowercased stripped text up in `commonTerms`. -/
def glossaryHit (text : List Char) : Option (List Char) :=
  if countWords text ≤ 2 then lookupAList commonTerms (stripCL (lowerCL text))
  else none

/-- The single-quote character (codepoint 39). -/
def squote : Char := Char.ofNat 39

/-- `translated.replace(chr(34), '').replace(chr(39), '')`: remove all
double- and single-quote characters. -/
def stripQuotes (l : List Char) : List Char :=
  l.filter (fun c => c ≠ '"' && c ≠ squote)

/-- The label-removal loop of v6.py lines 122-125: for each prefix in
order, if the current text starts with it, drop it and strip. -/
def labelStrips (targetLang : List Char) (t : List Char) : List Char :=
  [cl "Translation:", cl "Traducci√≥n:", targetLang ++ [':'], cl "Spanish:"].foldl
    (fun acc p =>
      if List.isPrefixOf p acc then stripCL (acc.drop p.length) else acc) t

/-- Post-processing of a successful backend response (v6.py 118-127):
strip, remove quote characters, remove known leading labels. -/
def postprocess (targetLang resp : List Char) : List Char :=
  labelStrips targetLang (stripQuotes (stripCL resp))

/-- Observable outcome of `translate_text_conservative`: the returned
string, the number of backend invocations, and the list of back-off
sleep durations (in seconds, in order). -/
structure TransOut where
  result : List Char
  calls : Nat
  sleeps : List Nat
deriving DecidableEq, Repr

/-- The retry loop of v6.py lines 114-133.  `backend i` is the outcome of
the `i`-th `llm.invoke` call (`none` models a raised exception); `fuel`
is the number of attempts still allowed; a sleep of `2 ^ attempt` seconds
occurs after a failed attempt only when further attempts remain. -/
def retryLoop (backend : Nat → Option (List Char)) (targetLang orig : List Char) :
    Nat → Nat → TransOut
  | _, 0 => ⟨orig, 0, []⟩
  | attempt, fuel + 1 =>
    match backend attempt with
    | some resp => ⟨postprocess targetLang resp, 1, []⟩
    | none =>
      let rest := retryLoop backend targetLang orig (attempt + 1) fuel
      ⟨rest.result, rest.calls + 1,
        (if fuel = 0 then [] else [2 ^ attempt]) ++ rest.sleeps⟩

/-- v6.py `translate_text_conservative`: eligibility filter, glossary
shortcut, then the backend with bounded retries. -/
def translate_text_conservative (backend : Nat → Option (List Char))
    (targetLang : List Char) (retries : Nat) (text : List Char) : TransOut :=
  if should_translate_text text then
    match glossaryHit text with
    | some v => ⟨v, 0, []⟩
    | none => retryLoop backend targetLang text 0 retries
  else ⟨text, 0, []⟩

/-! ## Geometry (`calculate_text_dimensions`, `create_better_redaction_rect`) -/

/-- An axis-aligned rectangle `(x0, y0, x1, y1)`; Python floats are
modelled as exact rationals. -/
structure Rect where
  x0 : ℚ
  y0 : ℚ
  x1 : ℚ
  y1 : ℚ
deriving DecidableEq, Repr

/-- v6.py `calculate_text_dimensions` (lines 165-174): width is
`len(text)` times `0.6 * font_size`, height is `1.2 * font_size`. -/
def calculate_text_dimensions (text : List Char) (fontSize : ℚ) : ℚ × ℚ :=
  ((text.length : ℚ) * (fontSize * (6 / 10)), fontSize * (12 / 10))

/-- v6.py `create_better_redaction_rect` (lines 266-288): take the max of
the bbox dimensions and the estimated text dimensions, anchor at the bbox
top-left, and pad by 1 on every side. -/
def create_better_redaction_rect (bbox : Rect) (text : List Char)
    (fontSize : ℚ) : Rect :=
  let wh := calculate_text_dimensions text fontSize
  let width := max (bbox.x1 - bbox.x0) wh.1
  let height := max (bbox.y1 - bbox.y0) wh.2
  let padding : ℚ := 1
  ⟨bbox.x0 - padding, bbox.y0 - padding,
    bbox.x0 + width + padding, bbox.y0 + height + padding⟩

/-! ## Reinsertion engine (`insert_text_with_fallbacks`, v6.py 176-264) -/

/-- The raw `color` entry of a span's font info: a Python int/float, an
RGB triple, or anything else. -/
inductive ColorVal
  | num (q : ℚ)
  | triple (r g b : ℚ)
  | other
deriving DecidableEq, Repr

/-- The font-info dictionary fields consumed by the reinsertion engine. -/
structure FontInfo where
  font : List Char
  size : ℚ
  color : ColorVal
deriving DecidableEq, Repr

/-- The color conversion of v6.py lines 196-204: every branch produces
black. -/
def convertColor : ColorVal → ℚ × ℚ × ℚ
  | ColorVal.num q => if q = 0 then (0, 0, 0) else (0, 0, 0)
  | _ => (0, 0, 0)

/-- One textbox-insertion attempt, as passed to the draw primitive. -/
structure Attempt where
  rect : Rect
  font : List Char
  size : ℚ
  color : ℚ × ℚ × ℚ
deriving DecidableEq, Repr

/-- The terminal point-insertion call (v6.py lines 252-261). -/
structure PointCall where
  pt : ℚ × ℚ
  font : List Char
  size : ℚ
  color : ℚ × ℚ × ℚ
deriving DecidableEq, Repr

/-- The per-attempt size clamp of v6.py lines 230-234. -/
def clampSize (s : ℚ) : ℚ := if s < 6 then 6 else if s > 20 then 20 else s

/-- The minimum-rect adjustment of v6.py lines 187-191: widen rects
narrower than 10 and raise rects shorter than 8. -/
def adjustMinRect (bbox : Rect) (text : List Char) : Rect :=
  let r1 :=
    if bbox.x1 - bbox.x0 < 10 then
      { bbox with x1 := bbox.x0 + max 50 (8 * (text.length : ℚ)) }
    else bbox
  if r1.y1 - r1.y0 < 8 then { r1 with y1 := r1.y0 + 12 } else r1

/-- The ordered strategy list of v6.py lines 206-222, with the per-attempt
size clamp applied (the sizes actually passed to the primitive). -/
def ladderStrategies (bbox : Rect) (text : List Char) (fi : FontInfo) :
    List Attempt :=
  let r0 := adjustMinRect bbox text
  let rExp : Rect := ⟨bbox.x0, bbox.y0, bbox.x1 + 50, bbox.y1 + 5⟩
  let col := convertColor fi.color
  [ ⟨r0, fi.font, clampSize fi.size, col⟩,
    ⟨r0, fi.font, clampSize (fi.size * (9 / 10)), col⟩,
    ⟨r0, fi.font, clampSize (fi.size * (8 / 10)), col⟩,
    ⟨r0, cl "helv", clampSize fi.size, col⟩,
    ⟨r0, cl "helv", clampSize (fi.size * (9 / 10)), col⟩,
    ⟨r0, cl "helv", clampSize 8, col⟩,
    ⟨rExp, fi.font, clampSize fi.size, col⟩,
    ⟨rExp, cl "helv", clampSize fi.size, col⟩,
    ⟨rExp, cl "helv", clampSize 8, col⟩ ]

/-- Success test on a primitive outcome: a raised exception (`none`) or a
negative fit result is a failure; a non-negative result is a success. -/
def tryOk (o : Option ℚ) : Bool :=
  match o with
  | some r => decide (0 ≤ r)
  | none => false

/-- The strategy loop of v6.py lines 224-250: try each attempt in order,
stop at the first success; returns the success flag and the list of
attempts actually issued, in order. -/
def tryLoop (tb : Attempt → Option ℚ) : List Attempt → Bool × List Attempt
  | [] => (false, [])
  | a :: rest =>
    if tryOk (tb a) then (true, [a])
    else
      let r := tryLoop tb rest
      (r.1, a :: r.2)

/-- Observable outcome of `insert_text_with_fallbacks`: reported success,
the textbox attempts issued, and the point-insertion call if reached. -/
structure InsertOut where
  ok : Bool
  tried : List Attempt
  pointTried : Option PointCall
deriving DecidableEq, Repr

/-- v6.py `insert_text_with_fallbacks`: empty-after-strip text is
rejected; otherwise the strategy ladder runs, and on total failure the
terminal point insertion at `(x0, y0 + 10)` with helv 8pt black is
issued, its non-negative result reported as success.  `tb` and `pt` are
the `insert_textbox` / `insert_text` primitives (`none` = exception). -/
def insert_text_with_fallbacks (tb : Attempt → Option ℚ)
    (pt : PointCall → Option ℚ) (bbox : Rect) (text : List Char)
    (fi : FontInfo) : InsertOut :=
  if (stripCL text).isEmpty then ⟨false, [], none⟩
  else
    let run := tryLoop tb (ladderStrategies bbox text fi)
    if run.1 then ⟨true, run.2, none⟩
    else
      let pc : PointCall := ⟨(bbox.x0, bbox.y0 + 10), cl "helv", 8, (0, 0, 0)⟩
      ⟨tryOk (pt pc), run.2, some pc⟩

/-- Index of the first strategy the primitive accepts (non-negative fit,
no exception), if any. -/
def firstSuccIdx (tb : Attempt → Option ℚ) : List Attempt → Option Nat
  | [] => none
  | a :: rest =>
    if tryOk (tb a) then some 0 else (firstSuccIdx tb rest).map (· + 1)

/-- A primitive outcome that the loop treats as a failure: an exception
or a negative fit result. -/
def attemptFails (o : Option ℚ) : Prop := ∀ r, o = some r → r < 0

/-! ## Page orchestration (v6.py `translate_pdf_layout_preserving`, 344-364) -/

/-- A translation task: original and translated text with the span's
bbox and font info (v6.py lines 334-340). -/
structure TranslationTask where
  original : List Char
  translated : List Char
  bbox : Rect
  fontInfo : FontInfo
deriving DecidableEq

/-- Page-mutating events issued while processing one page's tasks. -/
inductive PageEvent
  | addRedact (r : Rect)
  | applyRedactions
  | insertText (bbox : Rect) (text : List Char)
deriving DecidableEq

/-- The event trace of v6.py lines 344-364: add one redaction annotation
per task, apply all redactions once, then insert the translated text of
each task. -/
def pageEvents (tasks : List TranslationTask) : List PageEvent :=
  (tasks.map fun t =>
    PageEvent.addRedact
      (create_better_redaction_rect t.bbox t.original t.fontInfo.size))
  ++ [PageEvent.applyRedactions]
  ++ (tasks.map fun t => PageEvent.insertText t.bbox t.translated)

/-! ## Background sampler (`detect_background_color`, v4.py 113-154) -/

/-- Python `int()` on a rational: truncation toward zero. -/
def truncQ (q : ℚ) : ℤ := if 0 ≤ q then ⌊q⌋ else -⌊-q⌋

/-- Python `round()` to an integer: round half to even. -/
def rhe (q : ℚ) : ℤ :=
  if q - ⌊q⌋ < 1 / 2 then ⌊q⌋
  else if 1 / 2 < q - ⌊q⌋ then ⌊q⌋ + 1
  else if ⌊q⌋ % 2 = 0 then ⌊q⌋ else ⌊q⌋ + 1

/-- Python `round(q, d)`: round half to even at `d` decimal digits. -/
def roundToQ (q : ℚ) (d : Nat) : ℚ := (rhe (q * 10 ^ d) : ℚ) / 10 ^ d

/-- `round(channel / 255, 2)` for one sampled byte channel. -/
def quantChannel2 (c : Nat) : ℚ := roundToQ ((c : ℚ) / 255) 2

/-- `round(c, 1)`: the one-decimal quantization applied before counting. -/
def quant1 (q : ℚ) : ℚ := roundToQ q 1

/-- The rendered page raster: integer pixel grid; `pixel` returns `none`
on failure (the `except: continue` of the source). -/
structure Raster where
  width : ℤ
  height : ℤ
  pixel : ℤ → ℤ → Option (Nat × Nat × Nat)

/-- The five sample coordinates of v4.py lines 131-135: center first,
then the four corner-offset points, on the zoom-scaled integer grid. -/
def sampleCoords (bbox : Rect) (zoom : ℚ) : List (ℤ × ℤ) :=
  let x0 := truncQ (bbox.x0 * zoom)
  let y0 := truncQ (bbox.y0 * zoom)
  let x1 := truncQ (bbox.x1 * zoom)
  let y1 := truncQ (bbox.y1 * zoom)
  [ ((x0 + x1).fdiv 2, (y0 + y1).fdiv 2),
    (x0 + 5, y0 + 5), (x1 - 5, y0 + 5),
    (x0 + 5, y1 - 5), (x1 - 5, y1 - 5) ]

/-- The sampling loop of v4.py lines 137-144: keep, in order, the
successful in-bounds samples, each channel rounded to two decimals. -/
def sampledColors (ras : Raster) (bbox : Rect) (zoom : ℚ) :
    List (ℚ × ℚ × ℚ) :=
  (sampleCoords bbox zoom).filterMap (fun c =>
    if 0 ≤ c.1 ∧ c.1 < ras.width ∧ 0 ≤ c.2 ∧ c.2 < ras.height then
      (ras.pixel c.1 c.2).map (fun rgb =>
        (quantChannel2 rgb.1, quantChannel2 rgb.2.1, quantChannel2 rgb.2.2))
    else none)

/-- `rounded_colors` of v4.py line 148: each channel further rounded to
one decimal. -/
def quantizedSamples (ras : Raster) (bbox : Rect) (zoom : ℚ) :
    List (ℚ × ℚ × ℚ) :=
  (sampledColors ras bbox zoom).map (fun c =>
    (quant1 c.1, quant1 c.2.1, quant1 c.2.2))

/-- The keys of a Python `Counter` built from a list: the elements in
first-occurrence order. -/
def firstOccs {α : Type} [DecidableEq α] : List α → List α
  | [] => []
  | a :: rest => a :: (firstOccs rest).filter (fun b => decide (¬ b = a))

/-- Number of occurrences of `a` in a list (a Counter entry's count). -/
def countOcc {α : Type} [DecidableEq α] (a : α) (l : List α) : Nat :=
  l.countP (fun b => decide (b = a))

/-- `Counter(l).most_common(1)[0][0]`: among the keys in insertion
(first-occurrence) order, the first one with maximal count — Python's
`most_common` sorts stably by descending count. -/
def counterMostCommon {α : Type} [DecidableEq α] (l : List α) : Option α :=
  match firstOccs l with
  | [] => none
  | k :: ks =>
    some (ks.foldl (fun best c => if countOcc best l < countOcc c l then c else best) k)

/-- v4.py `detect_background_color`: white if no sample succeeded,
otherwise the most common quantized color. -/
def detect_background_color (ras : Raster) (bbox : Rect) (zoom : ℚ) :
    ℚ × ℚ × ℚ :=
  if (sampledColors ras bbox zoom).isEmpty then (1, 1, 1)
  else
    match counterMostCommon (quantizedSamples ras bbox zoom) with
    | some c => c
    | none => (1, 1, 1)

/-- Index of the first occurrence of `a` in a list (list length if
absent). -/
def firstIdx {α : Type} [DecidableEq α] (a : α) : List α → Nat
  | [] => 0
  | b :: rest => if b = a then 0 else firstIdx a rest + 1

/-! ## Claim C1 -/

/-- C1: any input whose trimmed form is a pure number, a currency amount,
a code-like token, has length at most 2, is one of the fixed
abbreviations, or has fewer than 3 alphabetic characters, is rejected by
`should_translate_text`, and `translate_text_conservative` returns it
unchanged with zero backend invocations. -/
theorem policy_rejects (s : List Char)
    (h : matchPureNumber (stripCL s) = true ∨ matchCurrency (stripCL s) = true ∨
         matchCodeToken (stripCL s) = true ∨ (stripCL s).length ≤ 2 ∨
         isAbbrev (stripCL s) = true ∨ countAlpha (stripCL s) < 3) :
    should_translate_text s = false ∧
      ∀ backend targetLang retries,
        translate_text_conservative backend targetLang retries s = ⟨s, 0, []⟩ := by
  have hs : should_translate_text s = false := by
    unfold should_translate_text
    rcases h with h | h | h | h | h | h <;> simp [h]
  refine ⟨hs, fun backend targetLang retries => ?_⟩
  simp [translate_text_conservative, hs]

/-- Witness for C1 at the concrete input `"123"` with a backend that
would answer, showing the backend is never consulted. -/
theorem policy_rejects_witness :
    should_translate_text (cl "123") = false ∧
      translate_text_conservative (fun _ => some (cl "X")) (cl "Spanish") 3 (cl "123")
        = ⟨cl "123", 0, []⟩ := by
  have h := policy_rejects (cl "123") (Or.inl (by decide))
  exact ⟨h.1, h.2 (fun _ => some (cl "X")) (cl "Spanish") 3⟩

/-! ## Claim C5 -/

/-- If every attempt in the window fails, the retry loop returns the
original text, uses all its fuel, and sleeps `2 ^ i` after every failed
attempt except the last. -/
theorem retryLoop_all_fail (backend : Nat → Option (List Char))
    (targetLang orig : List Char) :
    ∀ fuel attempt, (∀ i, attempt ≤ i → i < attempt + fuel → backend i = none) →
      retryLoop backend targetLang orig attempt fuel =
        ⟨orig, fuel, (List.range (fuel - 1)).map (fun j => 2 ^ (attempt + j))⟩ := by
  intro fuel
  induction fuel with
  | zero => intro attempt _; simp [retryLoop]
  | succ f ih =>
    intro attempt hall
    have hb : backend attempt = none := hall attempt (Nat.le_refl attempt) (by omega)
    have hrest := ih (attempt + 1) (fun i h1 h2 => hall i (by omega) (by omega))
    simp only [retryLoop, hb, hrest]
    cases f with
    | zero => simp
    | succ f' =>
      have hmap : (List.range (f' + 1)).map (fun j => 2 ^ (attempt + j)) =
          2 ^ attempt :: (List.range f').map (fun j => 2 ^ (attempt + 1 + j)) := by
        rw [List.range_succ_eq_map, List.map_cons, List.map_map]
        refine congrArg₂ List.cons (by rw [Nat.add_zero]) (List.map_congr_left ?_)
        intro j _
        show 2 ^ (attempt + Nat.succ j) = 2 ^ (attempt + 1 + j)
        congr 1
        omega
      simp only [Nat.succ_sub_one, hmap, if_neg (Nat.succ_ne_zero f'),
        List.singleton_append]

/-- If the first `N` attempts in the window fail and attempt `N` succeeds
with `v`, the retry loop returns the post-processed `v` after `N + 1`
backend calls with a sleep after each of the `N` failures. -/
theorem retryLoop_fail_then_succeed (backend : Nat → Option (List Char))
    (targetLang orig v : List Char) :
    ∀ N attempt fuel, N < fuel →
      (∀ i, attempt ≤ i → i < attempt + N → backend i = none) →
      backend (attempt + N) = some v →
      retryLoop backend targetLang orig attempt fuel =
        ⟨postprocess targetLang v, N + 1,
          (List.range N).map (fun j => 2 ^ (attempt + j))⟩ := by
  intro N
  induction N with
  | zero =>
    intro attempt fuel hlt _ hs
    obtain ⟨f, rfl⟩ : ∃ f, fuel = f + 1 := ⟨fuel - 1, by omega⟩
    rw [Nat.add_zero] at hs
    simp [retryLoop, hs]
  | succ n ih =>
    intro attempt fuel hlt hfail hs
    obtain ⟨f, rfl⟩ : ∃ f, fuel = f + 1 := ⟨fuel - 1, by omega⟩
    have hb : backend attempt = none := hfail attempt (Nat.le_refl _) (by omega)
    have hs' : backend (attempt + 1 + n) = some v := by
      rw [show attempt + 1 + n = attempt + (n + 1) from by omega]; exact hs
    have hrest := ih (attempt + 1) f (by omega)
      (fun i h1 h2 => hfail i (by omega) (by omega)) hs'
    simp only [retryLoop, hb, hrest]
    have hf : ¬ f = 0 := by omega
    have hmap : (List.range (n + 1)).map (fun j => 2 ^ (attempt + j)) =
        2 ^ attempt :: (List.range n).map (fun j => 2 ^ (attempt + 1 + j)) := by
      rw [List.range_succ_eq_map, List.map_cons, List.map_map]
      refine congrArg₂ List.cons (by rw [Nat.add_zero]) (List.map_congr_left ?_)
      intro j _
      show 2 ^ (attempt + Nat.succ j) = 2 ^ (attempt + 1 + j)
      congr 1
      omega
    simp [hf, hmap]

/-- C5: for eligible text with no glossary hit, if the backend fails on
every configured attempt, `translate_text_conservative` returns the
original text after `retries` calls, sleeping `1, 2, 4, ...` seconds
between consecutive attempts; if the backend fails `N < retries` times
and then succeeds, exactly `N + 1` calls occur (no retry beyond the
bound) and the post-processed success value is returned. -/
theorem translate_retry_behavior (backend : Nat → Option (List Char))
    (targetLang text : List Char) (retries : Nat)
    (helig : should_translate_text text = true)
    (hglos : glossaryHit text = none) :
    ((∀ i, i < retries → backend i = none) →
       translate_text_conservative backend targetLang retries text =
         ⟨text, retries, (List.range (retries - 1)).map (fun j => 2 ^ j)⟩) ∧
    (∀ N v, N < retries → (∀ i, i < N → backend i = none) → backend N = some v →
       translate_text_conservative backend targetLang retries text =
         ⟨postprocess targetLang v, N + 1, (List.range N).map (fun j => 2 ^ j)⟩) := by
  constructor
  · intro hall
    simp only [translate_text_conservative, helig, hglos, if_true]
    have h := retryLoop_all_fail backend targetLang text retries 0
      (fun i _ h2 => hall i (by omega))
    simpa using h
  · intro N v hlt hfail hs
    simp only [translate_text_conservative, helig, hglos, if_true]
    have h := retryLoop_fail_then_succeed backend targetLang text v N 0 retries hlt
      (fun i _ h2 => hfail i (by omega)) (by simpa using hs)
    simpa using h

/-- Witness for C5: a backend that fails once and then answers
`"hola mundo"` causes exactly two calls with a single 1-second sleep. -/
theorem translate_retry_behavior_witness :
    should_translate_text (cl "hello world today") = true ∧
    glossaryHit (cl "hello world today") = none ∧
    translate_text_conservative
        (fun i => if i = 0 then none else some (cl "hola mundo"))
        (cl "Spanish") 3 (cl "hello world today") = ⟨cl "hola mundo", 2, [1]⟩ := by
  refine ⟨by decide, by decide, ?_⟩
  have hfail : ∀ i, i < 1 →
      (fun i => if i = 0 then none else some (cl "hola mundo")) i = none := by
    intro i hi
    have h0 : i = 0 := by omega
    simp [h0]
  have hsucc : (fun i => if i = 0 then none else some (cl "hola mundo")) 1 =
      some (cl "hola mundo") := rfl
  have h := (translate_retry_behavior
      (fun i => if i = 0 then none else some (cl "hola mundo"))
      (cl "Spanish") (cl "hello world today") 3 (by decide) (by decide)).2
      1 (cl "hola mundo") (by omega) hfail hsucc
  rw [h]
  decide

/-! ## Claim C6 -/

/-- C6: for eligible text of at most two words whose lowercased trimmed
form is a glossary key, `translate_text_conservative` returns the fixed
glossary value with zero backend calls, for every backend. -/
theorem glossary_shortcut (text v : List Char)
    (helig : should_translate_text text = true)
    (hw : countWords text ≤ 2)
    (hv : lookupAList commonTerms (stripCL (lowerCL text)) = some v) :
    ∀ backend targetLang retries,
      translate_text_conservative backend targetLang retries text = ⟨v, 0, []⟩ := by
  intro backend targetLang retries
  have hg : glossaryHit text = some v := by simp [glossaryHit, hw, hv]
  simp [translate_text_conservative, helig, hg]

/-- Witness for C6: `"copay"` maps to `"copago"` with no backend call,
even under a backend that always raises. -/
theorem glossary_shortcut_witness :
    should_translate_text (cl "copay") = true ∧ countWords (cl "copay") ≤ 2 ∧
    translate_text_conservative (fun _ => none) (cl "Spanish") 3 (cl "copay") =
      ⟨cl "copago", 0, []⟩ :=
  ⟨by decide, by decide,
    glossary_shortcut (cl "copay") (cl "copago") (by decide) (by decide) (by decide)
      (fun _ => none) (cl "Spanish") 3⟩

/-! ## Claim C2 -/

/-- Dimension computation of `create_better_redaction_rect` for an
arbitrary text argument: anchored at the bbox top-left corner minus the
padding 1, width (resp. height) is the max of the bbox width and
`0.6 * fontSize` per character of that text (resp. the max of the bbox
height and `1.2 * fontSize`), inflated by the padding on each side. -/
theorem create_rect_dims (bbox : Rect) (text : List Char) (fontSize : ℚ) :
    (create_better_redaction_rect bbox text fontSize).x0 = bbox.x0 - 1 ∧
    (create_better_redaction_rect bbox text fontSize).y0 = bbox.y0 - 1 ∧
    (create_better_redaction_rect bbox text fontSize).x1 -
        (create_better_redaction_rect bbox text fontSize).x0 =
      max (bbox.x1 - bbox.x0) (6 / 10 * fontSize * (text.length : ℚ)) + 2 ∧
    (create_better_redaction_rect bbox text fontSize).y1 -
        (create_better_redaction_rect bbox text fontSize).y0 =
      max (bbox.y1 - bbox.y0) (12 / 10 * fontSize) + 2 := by
  have hw : (text.length : ℚ) * (fontSize * (6 / 10)) =
      6 / 10 * fontSize * (text.length : ℚ) := by ring
  have hh : fontSize * (12 / 10) = 12 / 10 * fontSize := by ring
  refine ⟨rfl, rfl, ?_, ?_⟩ <;>
    simp only [create_better_redaction_rect, calculate_text_dimensions, hw, hh] <;>
    ring

/-- C2 counterexample: the orchestrator computes each redaction rectangle
from the task's ORIGINAL text (v6.py line 349), so for the task
"Copay" -> "copago" (original 5 characters, translated 6, font size 12,
bbox `(10, 10, 20, 22)` of width 10) the rectangle's width is 38, not the
claimed maximum `max(10, 0.6 * 12 * 6) + 2 = 45.2` taken with the
translated text's estimated width. -/
theorem redaction_rect_translated_cex :
    (pageEvents [⟨cl "Copay", cl "copago", ⟨10, 10, 20, 22⟩,
        ⟨cl "helv", 12, ColorVal.num 0⟩⟩])[0]? =
      some (PageEvent.addRedact
        (create_better_redaction_rect ⟨10, 10, 20, 22⟩ (cl "Copay") 12)) ∧
    (create_better_redaction_rect ⟨10, 10, 20, 22⟩ (cl "Copay") 12).x1 -
        (create_better_redaction_rect ⟨10, 10, 20, 22⟩ (cl "Copay") 12).x0 ≠
      max ((20 : ℚ) - 10) (6 / 10 * 12 * ((cl "copago").length : ℚ)) + 2 := by
  constructor
  · simp [pageEvents]
  · have hd := (create_rect_dims ⟨10, 10, 20, 22⟩ (cl "Copay") 12).2.2.1
    rw [hd]
    rw [show (cl "Copay").length = 5 from rfl, show (cl "copago").length = 6 from rfl]
    rw [show ((20 : ℚ) - 10) = 10 from by norm_num]
    rw [max_eq_right (by push_cast; norm_num), max_eq_right (by push_cast; norm_num)]
    push_cast
    norm_num

/-- C2 (amended): every redaction rectangle the page orchestrator issues
comes from some task and is `create_better_redaction_rect` of that
task's ORIGINAL text: anchored at the task bbox's top-left corner minus
the padding 1, its width is the max of the bbox width and
`0.6 * fontSize` per character of the original text, its height the max
of the bbox height and `1.2 * fontSize`, each inflated by the padding 1
on both sides. -/
theorem redaction_rect_dims (tasks : List TranslationTask) (i : Nat) (r : Rect)
    (h : (pageEvents tasks)[i]? = some (PageEvent.addRedact r)) :
    ∃ t ∈ tasks,
      r = create_better_redaction_rect t.bbox t.original t.fontInfo.size ∧
      r.x0 = t.bbox.x0 - 1 ∧
      r.y0 = t.bbox.y0 - 1 ∧
      r.x1 - r.x0 = max (t.bbox.x1 - t.bbox.x0)
        (6 / 10 * t.fontInfo.size * (t.original.length : ℚ)) + 2 ∧
      r.y1 - r.y0 = max (t.bbox.y1 - t.bbox.y0) (12 / 10 * t.fontInfo.size) + 2 := by
  have hsplit : pageEvents tasks =
      (tasks.map fun t => PageEvent.addRedact
        (create_better_redaction_rect t.bbox t.original t.fontInfo.size))
      ++ (PageEvent.applyRedactions ::
        (tasks.map fun t => PageEvent.insertText t.bbox t.translated)) := by
    simp [pageEvents, List.append_assoc]
  rw [hsplit, List.getElem?_append, List.length_map] at h
  by_cases hi : i < tasks.length
  · rw [if_pos hi, List.getElem?_map, Option.map_eq_some'] at h
    obtain ⟨t, ht, heq⟩ := h
    injection heq with heq
    refine ⟨t, List.getElem?_mem ht, heq.symm, ?_⟩
    rw [← heq]
    exact create_rect_dims t.bbox t.original t.fontInfo.size
  · rw [if_neg hi] at h
    cases hk : i - tasks.length with
    | zero =>
      rw [hk] at h
      simp at h
    | succ k =>
      rw [hk, List.getElem?_cons_succ, List.getElem?_map, Option.map_eq_some'] at h
      obtain ⟨t, _, heq⟩ := h
      simp at heq

/-- Witness for C2 (amended) at a concrete one-task page: the single
redaction event's rectangle is the original-text rectangle of that
task. -/
theorem redaction_rect_dims_witness :
    (pageEvents [⟨cl "Copay", cl "copago", ⟨10, 10, 60, 22⟩,
        ⟨cl "helv", 12, ColorVal.num 0⟩⟩])[0]? =
      some (PageEvent.addRedact
        (create_better_redaction_rect ⟨10, 10, 60, 22⟩ (cl "Copay") 12)) ∧
    ∃ t ∈ [(⟨cl "Copay", cl "copago", ⟨10, 10, 60, 22⟩,
        ⟨cl "helv", 12, ColorVal.num 0⟩⟩ : TranslationTask)],
      create_better_redaction_rect ⟨10, 10, 60, 22⟩ (cl "Copay") 12 =
        create_better_redaction_rect t.bbox t.original t.fontInfo.size ∧
      (create_better_redaction_rect ⟨10, 10, 60, 22⟩ (cl "Copay") 12).x0 =
        t.bbox.x0 - 1 ∧
      (create_better_redaction_rect ⟨10, 10, 60, 22⟩ (cl "Copay") 12).y0 =
        t.bbox.y0 - 1 ∧
      (create_better_redaction_rect ⟨10, 10, 60, 22⟩ (cl "Copay") 12).x1 -
          (create_better_redaction_rect ⟨10, 10, 60, 22⟩ (cl "Copay") 12).x0 =
        max (t.bbox.x1 - t.bbox.x0)
          (6 / 10 * t.fontInfo.size * (t.original.length : ℚ)) + 2 ∧
      (create_better_redaction_rect ⟨10, 10, 60, 22⟩ (cl "Copay") 12).y1 -
          (create_better_redaction_rect ⟨10, 10, 60, 22⟩ (cl "Copay") 12).y0 =
        max (t.bbox.y1 - t.bbox.y0) (12 / 10 * t.fontInfo.size) + 2 :=
  ⟨by simp [pageEvents],
    redaction_rect_dims [⟨cl "Copay", cl "copago", ⟨10, 10, 60, 22⟩,
        ⟨cl "helv", 12, ColorVal.num 0⟩⟩] 0
      (create_better_redaction_rect ⟨10, 10, 60, 22⟩ (cl "Copay") 12)
      (by simp [pageEvents])⟩

/-! ## Claim C3 -/

/-- C3: for a span bbox with positive extent and positive font size, the
redaction rectangle strictly contains the bbox in all four coordinates. -/
theorem redaction_rect_strictly_contains (bbox : Rect) (text : List Char)
    (fontSize : ℚ) (hx : bbox.x0 < bbox.x1) (hy : bbox.y0 < bbox.y1)
    (hs : 0 < fontSize) :
    (create_better_redaction_rect bbox text fontSize).x0 < bbox.x0 ∧
    (create_better_redaction_rect bbox text fontSize).y0 < bbox.y0 ∧
    bbox.x1 < (create_better_redaction_rect bbox text fontSize).x1 ∧
    bbox.y1 < (create_better_redaction_rect bbox text fontSize).y1 := by
  have hwx := le_max_left (bbox.x1 - bbox.x0)
    ((text.length : ℚ) * (fontSize * (6 / 10)))
  have hwy := le_max_left (bbox.y1 - bbox.y0) (fontSize * (12 / 10))
  simp only [create_better_redaction_rect, calculate_text_dimensions]
  refine ⟨by linarith, by linarith, by linarith, by linarith⟩

/-- Witness for C3 at a concrete bbox, text and font size. -/
theorem redaction_rect_strictly_contains_witness :
    (0 : ℚ) < 10 ∧ (0 : ℚ) < 5 ∧ (0 : ℚ) < 12 ∧
    ((create_better_redaction_rect ⟨0, 0, 10, 5⟩ (cl "ab") 12).x0 < 0 ∧
     (create_better_redaction_rect ⟨0, 0, 10, 5⟩ (cl "ab") 12).y0 < 0 ∧
     (10 : ℚ) < (create_better_redaction_rect ⟨0, 0, 10, 5⟩ (cl "ab") 12).x1 ∧
     (5 : ℚ) < (create_better_redaction_rect ⟨0, 0, 10, 5⟩ (cl "ab") 12).y1) :=
  ⟨by norm_num, by norm_num, by norm_num,
    redaction_rect_strictly_contains ⟨0, 0, 10, 5⟩ (cl "ab") 12
      (by norm_num) (by norm_num) (by norm_num)⟩

/-! ## Strategy-loop lemmas -/

theorem tryOk_eq_false_of_fails {o : Option ℚ} (h : attemptFails o) :
    tryOk o = false := by
  cases o with
  | none => rfl
  | some r =>
    have := h r rfl
    simp [tryOk, not_le.mpr this]

/-- If the first success is at index `k`, the loop succeeds having issued
exactly the first `k + 1` attempts. -/
theorem tryLoop_eq_of_some (tb : Attempt → Option ℚ) :
    ∀ L k, firstSuccIdx tb L = some k → tryLoop tb L = (true, L.take (k + 1)) := by
  intro L
  induction L with
  | nil => intro k h; simp [firstSuccIdx] at h
  | cons a rest ih =>
    intro k h
    by_cases ha : tryOk (tb a) = true
    · simp [firstSuccIdx, ha] at h
      subst h
      simp [tryLoop, ha]
    · rw [Bool.not_eq_true] at ha
      simp [firstSuccIdx, ha] at h
      obtain ⟨k', hk', rfl⟩ := h
      simp [tryLoop, ha, ih k' hk']

/-- If no strategy succeeds, the loop fails having issued every attempt. -/
theorem tryLoop_eq_of_none (tb : Attempt → Option ℚ) :
    ∀ L, firstSuccIdx tb L = none → tryLoop tb L = (false, L) := by
  intro L
  induction L with
  | nil => intro _; rfl
  | cons a rest ih =>
    intro h
    by_cases ha : tryOk (tb a) = true
    · simp [firstSuccIdx, ha] at h
    · rw [Bool.not_eq_true] at ha
      simp [firstSuccIdx, ha] at h
      simp [tryLoop, ha, ih h]

/-- Every attempt the loop issues comes from the strategy list. -/
theorem tryLoop_tried_mem (tb : Attempt → Option ℚ) :
    ∀ L, ∀ a ∈ (tryLoop tb L).2, a ∈ L := by
  intro L
  induction L with
  | nil => intro a ha; simp [tryLoop] at ha
  | cons b rest ih =>
    intro a ha
    by_cases hb : tryOk (tb b) = true
    · simp [tryLoop, hb] at ha
      simp [ha]
    · rw [Bool.not_eq_true] at hb
      simp [tryLoop, hb] at ha
      rcases ha with ha | ha
      · simp [ha]
      · exact List.mem_cons_of_mem _ (ih a ha)

/-- If every strategy in the list fails, there is no first success. -/
theorem firstSuccIdx_eq_none (tb : Attempt → Option ℚ) :
    ∀ L, (∀ a ∈ L, attemptFails (tb a)) → firstSuccIdx tb L = none := by
  intro L
  induction L with
  | nil => intro _; rfl
  | cons a rest ih =>
    intro h
    have ha : tryOk (tb a) = false :=
      tryOk_eq_false_of_fails (h a (List.mem_cons_self a rest))
    simp [firstSuccIdx, ha, ih (fun b hb => h b (List.mem_cons_of_mem a hb))]

/-! ## Claim C7 -/

/-- C7: the strategy ladder is, in order, (original font, original size),
(original font, 0.9x), (original font, 0.8x), (helv, original size),
(helv, 0.9x), (helv, 8) against the (minimum-size adjusted) original
rectangle, then (original font, original size), (helv, original size),
(helv, 8) against the rectangle expanded right by 50 and down by 5, every
size clamped into [6, 20]; the engine stops at the first strategy whose
fit result is non-negative, issuing no attempt after it. -/
theorem ladder_order (tb : Attempt → Option ℚ) (pt : PointCall → Option ℚ)
    (bbox : Rect) (text : List Char) (fi : FontInfo)
    (ht : (stripCL text).isEmpty = false) :
    ladderStrategies bbox text fi =
      [ ⟨adjustMinRect bbox text, fi.font, clampSize fi.size,
          convertColor fi.color⟩,
        ⟨adjustMinRect bbox text, fi.font, clampSize (fi.size * (9 / 10)),
          convertColor fi.color⟩,
        ⟨adjustMinRect bbox text, fi.font, clampSize (fi.size * (8 / 10)),
          convertColor fi.color⟩,
        ⟨adjustMinRect bbox text, cl "helv", clampSize fi.size,
          convertColor fi.color⟩,
        ⟨adjustMinRect bbox text, cl "helv", clampSize (fi.size * (9 / 10)),
          convertColor fi.color⟩,
        ⟨adjustMinRect bbox text, cl "helv", clampSize 8,
          convertColor fi.color⟩,
        ⟨⟨bbox.x0, bbox.y0, bbox.x1 + 50, bbox.y1 + 5⟩, fi.font,
          clampSize fi.size, convertColor fi.color⟩,
        ⟨⟨bbox.x0, bbox.y0, bbox.x1 + 50, bbox.y1 + 5⟩, cl "helv",
          clampSize fi.size, convertColor fi.color⟩,
        ⟨⟨bbox.x0, bbox.y0, bbox.x1 + 50, bbox.y1 + 5⟩, cl "helv",
          clampSize 8, convertColor fi.color⟩ ] ∧
    (∀ k, firstSuccIdx tb (ladderStrategies bbox text fi) = some k →
       insert_text_with_fallbacks tb pt bbox text fi =
         ⟨true, (ladderStrategies bbox text fi).take (k + 1), none⟩) ∧
    (firstSuccIdx tb (ladderStrategies bbox text fi) = none →
       (insert_text_with_fallbacks tb pt bbox text fi).tried =
         ladderStrategies bbox text fi) := by
  refine ⟨rfl, ?_, ?_⟩
  · intro k hk
    have hrun := tryLoop_eq_of_some tb (ladderStrategies bbox text fi) k hk
    simp [insert_text_with_fallbacks, ht, hrun]
  · intro hk
    have hrun := tryLoop_eq_of_none tb (ladderStrategies bbox text fi) hk
    simp [insert_text_with_fallbacks, ht, hrun]

/-- Witness for C7: with a primitive accepting only helv, the first
success is strategy index 3 and exactly the first four attempts are
issued. -/
theorem ladder_order_witness :
    (stripCL (cl "hola")).isEmpty = false ∧
    firstSuccIdx (fun a => if a.font = cl "helv" then some 0 else none)
      (ladderStrategies ⟨0, 0, 100, 20⟩ (cl "hola")
        ⟨cl "times", 12, ColorVal.num 0⟩) = some 3 ∧
    insert_text_with_fallbacks
        (fun a => if a.font = cl "helv" then some 0 else none) (fun _ => none)
        ⟨0, 0, 100, 20⟩ (cl "hola") ⟨cl "times", 12, ColorVal.num 0⟩ =
      ⟨true,
        (ladderStrategies ⟨0, 0, 100, 20⟩ (cl "hola")
          ⟨cl "times", 12, ColorVal.num 0⟩).take 4, none⟩ := by
  refine ⟨by decide, by decide, ?_⟩
  exact (ladder_order (fun a => if a.font = cl "helv" then some 0 else none)
    (fun _ => none) ⟨0, 0, 100, 20⟩ (cl "hola") ⟨cl "times", 12, ColorVal.num 0⟩
    (by decide)).2.1 3 (by decide)

/-! ## Claim C4 -/

/-- When the text is non-empty after trimming and every ladder strategy
fails, the engine issues the whole ladder, then the terminal
point-insertion call, and reports that call's verdict. -/
theorem insert_of_all_fail (tb : Attempt → Option ℚ)
    (pt : PointCall → Option ℚ) (bbox : Rect) (text : List Char)
    (fi : FontInfo) (ht : (stripCL text).isEmpty = false)
    (hfail : ∀ a ∈ ladderStrategies bbox text fi, attemptFails (tb a)) :
    insert_text_with_fallbacks tb pt bbox text fi =
      ⟨tryOk (pt ⟨(bbox.x0, bbox.y0 + 10), cl "helv", 8, (0, 0, 0)⟩),
        ladderStrategies bbox text fi,
        some ⟨(bbox.x0, bbox.y0 + 10), cl "helv", 8, (0, 0, 0)⟩⟩ := by
  have hidx := firstSuccIdx_eq_none tb (ladderStrategies bbox text fi) hfail
  have hrun := tryLoop_eq_of_none tb (ladderStrategies bbox text fi) hidx
  simp [insert_text_with_fallbacks, ht, hrun]

/-- C4 counterexample: with non-empty text, every ladder strategy raising
and a point-insertion primitive reporting a negative result, the point
fallback is invoked yet `insert_text_with_fallbacks` reports failure —
so, as stated, reinsertion can report failure. -/
theorem insert_point_fallback_cex :
    (stripCL (cl "hola")).isEmpty = false ∧
    (insert_text_with_fallbacks (fun _ => none) (fun _ => some (-1))
        ⟨0, 0, 100, 20⟩ (cl "hola") ⟨cl "helv", 12, ColorVal.num 0⟩).pointTried.isSome
      = true ∧
    (insert_text_with_fallbacks (fun _ => none) (fun _ => some (-1))
        ⟨0, 0, 100, 20⟩ (cl "hola") ⟨cl "helv", 12, ColorVal.num 0⟩).ok
      = false := by
  rw [insert_of_all_fail (fun _ => none) (fun _ => some (-1)) ⟨0, 0, 100, 20⟩
    (cl "hola") ⟨cl "helv", 12, ColorVal.num 0⟩ (by decide)
    (fun a _ r hr => by simp at hr)]
  refine ⟨by decide, rfl, ?_⟩
  show tryOk (some (-1)) = false
  norm_num [tryOk]

/-- C4 (amended): for non-empty (after trim) text, when every ladder
strategy fails, the point-insertion fallback at `(x0, y0 + 10)` with
helv 8pt black is always invoked, and the reported outcome is exactly the
point primitive's verdict: success iff it returns a non-negative result
(failure if it raises or returns a negative result). -/
theorem insert_point_fallback (tb : Attempt → Option ℚ)
    (pt : PointCall → Option ℚ) (bbox : Rect) (text : List Char)
    (fi : FontInfo) (ht : (stripCL text).isEmpty = false)
    (hfail : ∀ a ∈ ladderStrategies bbox text fi, attemptFails (tb a)) :
    (insert_text_with_fallbacks tb pt bbox text fi).pointTried =
      some ⟨(bbox.x0, bbox.y0 + 10), cl "helv", 8, (0, 0, 0)⟩ ∧
    (insert_text_with_fallbacks tb pt bbox text fi).ok =
      tryOk (pt ⟨(bbox.x0, bbox.y0 + 10), cl "helv", 8, (0, 0, 0)⟩) := by
  rw [insert_of_all_fail tb pt bbox text fi ht hfail]
  exact ⟨rfl, rfl⟩

/-- Witness for C4 (amended) with an all-raising textbox primitive and a
point primitive reporting fit 0. -/
theorem insert_point_fallback_witness :
    (stripCL (cl "hola")).isEmpty = false ∧
    (insert_text_with_fallbacks (fun _ => none) (fun _ => some 0)
        ⟨0, 0, 100, 20⟩ (cl "hola") ⟨cl "helv", 12, ColorVal.num 0⟩).pointTried.isSome
      = true ∧
    (insert_text_with_fallbacks (fun _ => none) (fun _ => some 0)
        ⟨0, 0, 100, 20⟩ (cl "hola") ⟨cl "helv", 12, ColorVal.num 0⟩).ok
      = true := by
  have h := insert_point_fallback (fun _ => none) (fun _ => some 0)
    ⟨0, 0, 100, 20⟩ (cl "hola") ⟨cl "helv", 12, ColorVal.num 0⟩ (by decide)
    (fun a _ r hr => by simp at hr)
  refine ⟨by decide, ?_, ?_⟩
  · rw [h.1]; rfl
  · rw [h.2]
    norm_num [tryOk]

/-! ## Claim C10 -/

/-- C10: the converted foreground color is black for every raw color
value, every textbox attempt the engine issues is drawn in black, and so
is the point-insertion fallback when reached. -/
theorem insert_always_black (tb : Attempt → Option ℚ)
    (pt : PointCall → Option ℚ) (bbox : Rect) (text : List Char)
    (fi : FontInfo) :
    convertColor fi.color = (0, 0, 0) ∧
    (∀ a ∈ (insert_text_with_fallbacks tb pt bbox text fi).tried,
       a.color = (0, 0, 0)) ∧
    (∀ pc, (insert_text_with_fallbacks tb pt bbox text fi).pointTried = some pc →
       pc.color = (0, 0, 0)) := by
  have hconv : convertColor fi.color = (0, 0, 0) := by
    cases fi.color with
    | num q => by_cases hq : q = 0 <;> simp [convertColor, hq]
    | triple r g b => rfl
    | other => rfl
  have hladder : ∀ a ∈ ladderStrategies bbox text fi, a.color = (0, 0, 0) := by
    intro a ha
    simp only [ladderStrategies, List.mem_cons, List.mem_singleton] at ha
    rcases ha with h | h | h | h | h | h | h | h | h | h <;> first
      | (subst h; exact hconv)
      | simp at h
  refine ⟨hconv, ?_, ?_⟩
  · intro a ha
    by_cases he : (stripCL text).isEmpty
    · simp [insert_text_with_fallbacks, he] at ha
    · rw [Bool.not_eq_true] at he
      have hmem : a ∈ (tryLoop tb (ladderStrategies bbox text fi)).2 := by
        rcases hb : (tryLoop tb (ladderStrategies bbox text fi)).1 with _ | _ <;>
          simpa [insert_text_with_fallbacks, he, hb] using ha
      exact hladder a (tryLoop_tried_mem tb (ladderStrategies bbox text fi) a hmem)
  · intro pc hpc
    by_cases he : (stripCL text).isEmpty
    · simp [insert_text_with_fallbacks, he] at hpc
    · rw [Bool.not_eq_true] at he
      rcases hb : (tryLoop tb (ladderStrategies bbox text fi)).1 with _ | _
      · simp [insert_text_with_fallbacks, he, hb] at hpc
        rw [← hpc]; rfl
      · simp [insert_text_with_fallbacks, he, hb] at hpc

/-- Witness for C10: a non-zero integer span color still converts to
black. -/
theorem insert_always_black_witness :
    convertColor (ColorVal.num 255) = (0, 0, 0) :=
  (insert_always_black (fun _ => none) (fun _ => none) ⟨0, 0, 100, 20⟩
    (cl "hola") ⟨cl "times", 12, ColorVal.num 255⟩).1

/-! ## Claim C9 -/

/-- C9: in a page's event trace the single `applyRedactions` event sits
at position `tasks.length`: every redaction annotation is added before
it and every text insertion happens after it, so the whole erase batch
completes before any insertion. -/
theorem page_erase_before_insert (tasks : List TranslationTask) :
    (∀ i, (pageEvents tasks)[i]? = some PageEvent.applyRedactions ↔
       i = tasks.length) ∧
    (∀ i r, (pageEvents tasks)[i]? = some (PageEvent.addRedact r) →
       i < tasks.length) ∧
    (∀ j b t, (pageEvents tasks)[j]? = some (PageEvent.insertText b t) →
       tasks.length < j) := by
  have hsplit : pageEvents tasks =
      (tasks.map fun t => PageEvent.addRedact
        (create_better_redaction_rect t.bbox t.original t.fontInfo.size))
      ++ (PageEvent.applyRedactions ::
        (tasks.map fun t => PageEvent.insertText t.bbox t.translated)) := by
    simp [pageEvents, List.append_assoc]
  have hAval : ∀ (i : Nat) (e : PageEvent),
      (tasks.map fun t => PageEvent.addRedact
        (create_better_redaction_rect t.bbox t.original t.fontInfo.size))[i]?
        = some e → ∃ r, e = PageEvent.addRedact r := by
    intro i e he
    rw [List.getElem?_map, Option.map_eq_some'] at he
    obtain ⟨t, _, rfl⟩ := he
    exact ⟨_, rfl⟩
  have hBval : ∀ (i : Nat) (e : PageEvent),
      (tasks.map fun t => PageEvent.insertText t.bbox t.translated)[i]?
        = some e → ∃ b u, e = PageEvent.insertText b u := by
    intro i e he
    rw [List.getElem?_map, Option.map_eq_some'] at he
    obtain ⟨t, _, rfl⟩ := he
    exact ⟨_, _, rfl⟩
  have hmid : ∀ (i : Nat), (pageEvents tasks)[i]? =
      if i < tasks.length then
        (tasks.map fun t => PageEvent.addRedact
          (create_better_redaction_rect t.bbox t.original t.fontInfo.size))[i]?
      else (PageEvent.applyRedactions ::
        (tasks.map fun t => PageEvent.insertText t.bbox t.translated))[i - tasks.length]? := by
    intro i
    rw [hsplit, List.getElem?_append, List.length_map]
  refine ⟨?_, ?_, ?_⟩
  · intro i
    constructor
    · intro h
      by_contra hne
      by_cases hi : i < tasks.length
      · rw [hmid i, if_pos hi] at h
        obtain ⟨r, hr⟩ := hAval i _ h
        simp at hr
      · rw [hmid i, if_neg hi] at h
        have hk : i - tasks.length = (i - tasks.length - 1) + 1 := by omega
        rw [hk, List.getElem?_cons_succ] at h
        obtain ⟨b, u, hbu⟩ := hBval _ _ h
        simp at hbu
    · rintro rfl
      rw [hmid, if_neg (lt_irrefl _), Nat.sub_self]
      simp
  · intro i r h
    by_contra hge
    rw [hmid i, if_neg hge] at h
    cases hk : i - tasks.length with
    | zero =>
      rw [hk] at h
      simp at h
    | succ k =>
      rw [hk, List.getElem?_cons_succ] at h
      obtain ⟨b, u, hbu⟩ := hBval _ _ h
      simp at hbu
  · intro j b u h
    by_contra hle
    push_neg at hle
    by_cases hj : j < tasks.length
    · rw [hmid j, if_pos hj] at h
      obtain ⟨r, hr⟩ := hAval j _ h
      simp at hr
    · have hj' : j = tasks.length := by omega
      rw [hmid j, if_neg hj, hj', Nat.sub_self] at h
      simp at h

/-- Witness for C9: with one concrete task the apply event is at index 1
(after the single redaction add, before the single insert). -/
theorem page_erase_before_insert_witness :
    (pageEvents [⟨cl "Copay", cl "copago", ⟨10, 10, 60, 22⟩,
        ⟨cl "helv", 12, ColorVal.num 0⟩⟩])[1]? =
      some PageEvent.applyRedactions :=
  (page_erase_before_insert [⟨cl "Copay", cl "copago", ⟨10, 10, 60, 22⟩,
      ⟨cl "helv", 12, ColorVal.num 0⟩⟩]).1 1 |>.mpr rfl

/-! ## Counter lemmas -/

/-- The strict-argmax fold returns an element of maximal `cnt` whose
occurrence in the scanned list is preceded only by elements of strictly
smaller `cnt`. -/
theorem foldl_argmax_spec {α : Type} (cnt : α → Nat) :
    ∀ (ks : List α) (k : α),
      (∀ d ∈ k :: ks, cnt d ≤
        cnt (ks.foldl (fun b c => if cnt b < cnt c then c else b) k)) ∧
      ∃ pre suf,
        k :: ks =
          pre ++ (ks.foldl (fun b c => if cnt b < cnt c then c else b) k) :: suf ∧
        ∀ d ∈ pre,
          cnt d < cnt (ks.foldl (fun b c => if cnt b < cnt c then c else b) k) := by
  intro ks
  induction ks with
  | nil =>
    intro k
    refine ⟨?_, [], [], rfl, by simp⟩
    intro d hd
    rw [List.mem_singleton] at hd
    subst hd
    exact Nat.le_refl _
  | cons c ks' ih =>
    intro k
    by_cases h : cnt k < cnt c
    · have hf : (c :: ks').foldl (fun b c => if cnt b < cnt c then c else b) k =
          ks'.foldl (fun b c => if cnt b < cnt c then c else b) c := by
        simp [if_pos h]
      obtain ⟨hmax, pre', suf', hsplit, hpre⟩ := ih c
      rw [hf]
      refine ⟨?_, k :: pre', suf', ?_, ?_⟩
      · intro d hd
        rcases List.mem_cons.mp hd with rfl | hd
        · exact le_of_lt (lt_of_lt_of_le h (hmax c (List.mem_cons_self c ks')))
        · exact hmax d hd
      · rw [List.cons_append, ← hsplit]
      · intro d hd
        rcases List.mem_cons.mp hd with rfl | hd
        · exact lt_of_lt_of_le h (hmax c (List.mem_cons_self c ks'))
        · exact hpre d hd
    · have hf : (c :: ks').foldl (fun b c => if cnt b < cnt c then c else b) k =
          ks'.foldl (fun b c => if cnt b < cnt c then c else b) k := by
        simp [if_neg h]
      obtain ⟨hmax, pre', suf', hsplit, hpre⟩ := ih k
      rw [hf]
      have hck : cnt c ≤ cnt k := Nat.le_of_not_lt h
      have hkmax := hmax k (List.mem_cons_self k ks')
      refine ⟨?_, ?_⟩
      · intro d hd
        rcases List.mem_cons.mp hd with rfl | hd
        · exact hkmax
        · rcases List.mem_cons.mp hd with rfl | hd2
          · exact le_trans hck hkmax
          · exact hmax d (List.mem_cons_of_mem k hd2)
      · cases pre' with
        | nil =>
          rw [List.nil_append] at hsplit
          injection hsplit with h1 h2
          refine ⟨[], c :: ks', ?_, by simp⟩
          rw [List.nil_append, ← h1]
        | cons p0 ptl =>
          rw [List.cons_append] at hsplit
          injection hsplit with h1 h2
          have hkp : k ∈ p0 :: ptl := by
            rw [h1]
            exact List.mem_cons_self p0 ptl
          refine ⟨k :: c :: ptl, suf', ?_, ?_⟩
          · rw [List.cons_append, List.cons_append]
            exact congrArg (List.cons k) (congrArg (List.cons c) h2)
          · intro d hd
            rcases List.mem_cons.mp hd with rfl | hd
            · exact hpre d hkp
            · rcases List.mem_cons.mp hd with rfl | hd2
              · exact lt_of_le_of_lt hck (hpre k hkp)
              · exact hpre d (List.mem_cons_of_mem p0 hd2)

/-- The Counter key list contains exactly the elements of the list. -/
theorem mem_firstOccs {α : Type} [DecidableEq α] :
    ∀ (l : List α) (a : α), a ∈ firstOccs l ↔ a ∈ l := by
  intro l
  induction l with
  | nil => intro a; simp [firstOccs]
  | cons x t ih =>
    intro a
    simp only [firstOccs, List.mem_cons, List.mem_filter, decide_eq_true_eq]
    constructor
    · rintro (rfl | ⟨ha, _⟩)
      · exact Or.inl rfl
      · exact Or.inr ((ih a).mp ha)
    · rintro (rfl | ha)
      · exact Or.inl rfl
      · by_cases hax : a = x
        · exact Or.inl hax
        · exact Or.inr ⟨(ih a).mpr ha, hax⟩

theorem firstIdx_cons_self {α : Type} [DecidableEq α] (x : α) (t : List α) :
    firstIdx x (x :: t) = 0 := by
  simp [firstIdx]

theorem firstIdx_cons_ne {α : Type} [DecidableEq α] (x a : α) (t : List α)
    (h : ¬ x = a) : firstIdx a (x :: t) = firstIdx a t + 1 := by
  simp [firstIdx, h]

/-- The Counter keys are listed in strictly increasing first-occurrence
order. -/
theorem pairwise_firstIdx_firstOccs {α : Type} [DecidableEq α] :
    ∀ l : List α,
      (firstOccs l).Pairwise (fun a b => firstIdx a l < firstIdx b l) := by
  intro l
  induction l with
  | nil => simp [firstOccs]
  | cons x t ih =>
    rw [firstOccs, List.pairwise_cons]
    constructor
    · intro b hb
      rw [List.mem_filter, decide_eq_true_eq] at hb
      have hxb : ¬ x = b := fun h => hb.2 h.symm
      rw [firstIdx_cons_self, firstIdx_cons_ne x b t hxb]
      omega
    · have hpw : ((firstOccs t).filter (fun b => decide (¬ b = x))).Pairwise
          (fun a b => firstIdx a t < firstIdx b t) :=
        ih.sublist (List.filter_sublist _)
      refine List.Pairwise.imp_of_mem ?_ hpw
      intro a b ha hb hab
      rw [List.mem_filter, decide_eq_true_eq] at ha hb
      rw [firstIdx_cons_ne x a t (fun h => ha.2 h.symm),
        firstIdx_cons_ne x b t (fun h => hb.2 h.symm)]
      omega

/-- `counterMostCommon` of a non-empty list returns a member of maximal
count whose first occurrence is earliest among all maximal-count
members. -/
theorem counterMostCommon_spec {α : Type} [DecidableEq α] (l : List α)
    (hl : l ≠ []) :
    ∃ r, counterMostCommon l = some r ∧ r ∈ l ∧
      (∀ d ∈ l, countOcc d l ≤ countOcc r l) ∧
      (∀ d ∈ l, countOcc d l = countOcc r l → firstIdx r l ≤ firstIdx d l) := by
  cases hfo : firstOccs l with
  | nil =>
    exfalso
    cases l with
    | nil => exact hl rfl
    | cons x t => simp [firstOccs] at hfo
  | cons k ks =>
    have hcmc : counterMostCommon l =
        some (ks.foldl (fun best c => if countOcc best l < countOcc c l then c else best) k) := by
      simp only [counterMostCommon, hfo]
    obtain ⟨hmax, pre, suf, hsp, hpre⟩ := foldl_argmax_spec (fun a => countOcc a l) ks k
    set r := ks.foldl (fun best c => if countOcc best l < countOcc c l then c else best) k
      with hr
    have hrko : r ∈ k :: ks := by
      rw [hsp]
      exact List.mem_append_right _ (List.mem_cons_self _ _)
    have hmemiff : ∀ d : α, d ∈ l ↔ d ∈ k :: ks := by
      intro d
      rw [← hfo, mem_firstOccs]
    refine ⟨r, hcmc, (hmemiff r).mpr hrko, ?_, ?_⟩
    · intro d hd
      exact hmax d ((hmemiff d).mp hd)
    · intro d hd hcount
      have hdks := (hmemiff d).mp hd
      rw [hsp] at hdks
      rcases List.mem_append.mp hdks with hdpre | hdrs
      · exact absurd hcount (by have := hpre d hdpre; omega)
      · rcases List.mem_cons.mp hdrs with rfl | hdsuf
        · exact Nat.le_refl _
        · have hpw := pairwise_firstIdx_firstOccs l
          rw [hfo, hsp] at hpw
          have h2 := (List.pairwise_append.mp hpw).2.1
          have h3 := (List.pairwise_cons.mp h2).1
          exact le_of_lt (h3 d hdsuf)

/-! ## Claim C8 -/

/-- C8: `detect_background_color` returns white whenever no sample
succeeds, and otherwise returns a quantized sampled color of maximal
multiplicity whose first occurrence in the sample order is earliest
among all maximal-count colors; being a total function of the raster
oracle, it raises no exception even for regions outside the raster. -/
theorem background_color_selection (ras : Raster) (bbox : Rect) (zoom : ℚ) :
    (sampledColors ras bbox zoom = [] →
       detect_background_color ras bbox zoom = (1, 1, 1)) ∧
    (sampledColors ras bbox zoom ≠ [] →
       detect_background_color ras bbox zoom ∈ quantizedSamples ras bbox zoom ∧
       (∀ d ∈ quantizedSamples ras bbox zoom,
          countOcc d (quantizedSamples ras bbox zoom) ≤
            countOcc (detect_background_color ras bbox zoom)
              (quantizedSamples ras bbox zoom)) ∧
       (∀ d ∈ quantizedSamples ras bbox zoom,
          countOcc d (quantizedSamples ras bbox zoom) =
              countOcc (detect_background_color ras bbox zoom)
                (quantizedSamples ras bbox zoom) →
            firstIdx (detect_background_color ras bbox zoom)
                (quantizedSamples ras bbox zoom) ≤
              firstIdx d (quantizedSamples ras bbox zoom))) := by
  constructor
  · intro h
    simp [detect_background_color, h]
  · intro h
    have hq : quantizedSamples ras bbox zoom ≠ [] := by
      rw [quantizedSamples]
      simpa using h
    obtain ⟨r, hr, hmem, hmax, htie⟩ := counterMostCommon_spec _ hq
    have hd : detect_background_color ras bbox zoom = r := by
      have hne : (sampledColors ras bbox zoom).isEmpty = false := by
        simpa [List.isEmpty_iff] using h
      simp [detect_background_color, hne, hr]
    rw [hd]
    exact ⟨hmem, hmax, htie⟩

/-- Witness for C8: a raster whose pixel accessor always fails yields
zero samples and the white default. -/
theorem background_color_selection_witness :
    sampledColors ⟨10, 10, fun _ _ => none⟩ ⟨0, 0, 4, 4⟩ 1 = [] ∧
    detect_background_color ⟨10, 10, fun _ _ => none⟩ ⟨0, 0, 4, 4⟩ 1 = (1, 1, 1) := by
  have hnil : sampledColors ⟨10, 10, fun _ _ => none⟩ ⟨0, 0, 4, 4⟩ 1 = [] := by
    rw [sampledColors, List.filterMap_eq_nil_iff]
    intro c _
    split
    · rfl
    · rfl
  exact ⟨hnil,
    (background_color_selection ⟨10, 10, fun _ _ => none⟩ ⟨0, 0, 4, 4⟩ 1).1 hnil⟩
